import Mathlib

/-!
Verification of the delphi-epidata repository fragment: the server security
layer, the query-building engine, the covidcast signal database, the nowcast
serving endpoint and the hospitalization acquisition pipeline, shallowly
embedded in Lean 4 from the Python sources.
-/

namespace Epidata

/-! ## Security layer, from src/src/server/_security.py -/

/-- A user record from the identity store: an API key and role memberships. -/
structure User where
  api_key : String
  roles : List String
deriving DecidableEq, Repr

/-- `User.has_role`, membership of a role name in the user's roles. -/
def User.has_role (u : User) (r : String) : Bool := u.roles.contains r

/-- An HTTP request as the security layer sees it: `request.values`
(query/form parameters, first binding wins), `request.authorization`
(HTTP Basic username/password, when present), the `Authorization` header,
and the request path. -/
structure Request where
  values : List (String × String)
  authorization : Option (String × String)
  authorizationHeader : Option String
  path : String
deriving DecidableEq, Repr

/-- `n in request.values` / `request.values[n]`: the first binding of the
parameter named `n`, when present. -/
def Request.param (r : Request) (n : String) : Option String :=
  (r.values.find? (fun p => p.1 == n)).map Prod.snd

/-- Python `s.startswith(pre)`, character-exact. -/
def pyStartsWith (s pre : String) : Bool := pre.data.isPrefixOf s.data

/-- Python `s[n:]`: drop the first `n` characters. -/
def pyDrop (s : String) (n : Nat) : String := String.mk (s.data.drop n)

/-- The `Bearer <token>` branch of `resolve_auth_token`: when the
`Authorization` header starts with the literal `Bearer `, the rest of the
header. -/
def bearerToken (r : Request) : Option String :=
  match r.authorizationHeader with
  | some h => if pyStartsWith h "Bearer " then some (pyDrop h 7) else none
  | none => none

/-- `resolve_auth_token` from `_security.py`: request parameters `auth`,
`api_key`, `token` in that order, then HTTP Basic with username `epidata`
(returning the password), then a Bearer header, else no token. -/
def resolve_auth_token (r : Request) : Option String :=
  match r.param "auth" with
  | some v => some v
  | none =>
    match r.param "api_key" with
    | some v => some v
    | none =>
      match r.param "token" with
      | some v => some v
      | none =>
        match r.authorization with
        | some up => if up.1 = "epidata" then some up.2 else bearerToken r
        | none => bearerToken r

/-- `API_KEY_HARD_WARNING = API_KEY_REQUIRED_STARTING_AT - timedelta(days=14)`.
Dates are modelled as integer day numbers; `cutover` is the configured
`API_KEY_REQUIRED_STARTING_AT`. -/
def API_KEY_HARD_WARNING (cutover : Int) : Int := cutover - 14

/-- `API_KEY_SOFT_WARNING = API_KEY_HARD_WARNING - timedelta(days=14)`. -/
def API_KEY_SOFT_WARNING (cutover : Int) : Int := API_KEY_HARD_WARNING cutover - 14

/-- `show_soft_api_key_warning`: anonymous caller and today in
`[API_KEY_SOFT_WARNING, API_KEY_HARD_WARNING)`. `user` is the resolved
`current_user` (none for an anonymous caller), `today` is `date.today()`. -/
def show_soft_api_key_warning (cutover : Int) (user : Option User) (today : Int) : Bool :=
  user.isNone && (decide (API_KEY_SOFT_WARNING cutover ≤ today)
    && decide (today < API_KEY_HARD_WARNING cutover))

/-- `show_hard_api_key_warning`: anonymous caller and today in
`[API_KEY_HARD_WARNING, API_KEY_REQUIRED_STARTING_AT)`. -/
def show_hard_api_key_warning (cutover : Int) (user : Option User) (today : Int) : Bool :=
  user.isNone && (decide (API_KEY_HARD_WARNING cutover ≤ today)
    && decide (today < cutover))

/-- `require_api_key`: today is at or past `API_KEY_REQUIRED_STARTING_AT`,
independent of the caller. -/
def require_api_key (cutover : Int) (today : Int) : Bool :=
  decide (cutover ≤ today)

/-- `public_routes_list` from `_is_public_route`. -/
def public_routes_list : List String := ["lib", "admin", "version"]

/-- `_is_public_route`: the request path starts with `URL_PREFIX/<route>` for
one of the allowlisted routes. `urlBase` models the configured `URL_PREFIX`. -/
def is_public_route (urlBase : String) (path : String) : Bool :=
  public_routes_list.any (fun route => pyStartsWith path (urlBase ++ "/" ++ route))

/-- Outcome of a guarded route: the wrapped handler ran, or the guard raised
`Unauthorized`. -/
inductive RouteOutcome where
  | handled
  | unauthorized
deriving DecidableEq, Repr

/-- `require_role` from `_security.py`: with no required role the handler is
returned unwrapped; otherwise the wrapper rejects when there is no current
user or the user lacks the role. The request path is available through the
request context but is not consulted. -/
def require_role (required_role : String) (_path : String) (user : Option User) : RouteOutcome :=
  if required_role = "" then RouteOutcome.handled
  else
    match user with
    | none => RouteOutcome.unauthorized
    | some u => if u.has_role required_role then RouteOutcome.handled
      else RouteOutcome.unauthorized

/-! ## Query engine, from src/src/server/_query.py -/

/-- Python `str(i)` on a natural number, digit extraction with explicit fuel
(the fuel `n+1` always suffices since a number has at most `n+1` digits). -/
def natDigitsAux : Nat → Nat → List Char
  | 0, _ => []
  | fuel + 1, n =>
    if n < 10 then [Char.ofNat (48 + n)]
    else natDigitsAux fuel (n / 10) ++ [Char.ofNat (48 + n % 10)]

/-- Decimal rendering of a natural number, as Python's `str`. -/
def pyStr (n : Nat) : String := String.mk (natDigitsAux (n + 1) n)

/-- Zero-padded decimal formatting `"{:0Nd}".format(n)` for a nonnegative
integer, used by `date_string`. -/
def pad0 (width : Nat) (n : Int) : String :=
  let s := natDigitsAux (n.toNat + 1) n.toNat
  String.mk (List.replicate (width - s.length) '0' ++ s)

/-- `date_string` from `_query.py`: YYYYMMDD integer to "YYYY-MM-DD" by pure
arithmetic (`int(value/10000) % 10000` etc.), no calendar validation.
`int()` truncates toward zero and Python `%` is floor-mod, hence
`Int.tdiv`/`Int.emod`. -/
def date_string (value : Int) : String :=
  pad0 4 ((value.tdiv 10000).emod 10000) ++ "-"
    ++ pad0 2 ((value.tdiv 100).emod 100) ++ "-"
    ++ pad0 2 (value.emod 100)

/-- A filter value: either a scalar or a 2-element `(lo, hi)` pair, as in
`Union[Tuple[str, str], str, Tuple[int, int], int]`. -/
inductive FilterVal (α : Type) where
  | scalar (v : α)
  | pair (lo hi : α)
deriving DecidableEq, Repr

/-- `to_condition` from `_query.py`: one predicate and its bind-parameter
assignments. A pair yields `field BETWEEN :param_key AND :param_key_2` and
binds both formatted endpoints; a scalar yields `field = :param_key` and
binds the formatted value. The Python function mutates the shared `params`
dict; here the assignments are returned in order. -/
def to_condition (field : String) (v : FilterVal α) (param_key : String) (fmt : α → β) :
    String × List (String × β) :=
  match v with
  | .pair lo hi =>
      (field ++ " BETWEEN :" ++ param_key ++ " AND :" ++ param_key ++ "_2",
        [(param_key, fmt lo), (param_key ++ "_2", fmt hi)])
  | .scalar v => (field ++ " = :" ++ param_key, [(param_key, fmt v)])

/-- The list comprehension of `filter_values`: `to_condition` at parameter
key `param_key_i` for each `(i, v)` of `enumerate(values)`. -/
def filter_values_aux (field param_key : String) (fmt : α → β) :
    Nat → List (FilterVal α) → List (String × List (String × β))
  | _, [] => []
  | i, v :: rest =>
      to_condition field v (param_key ++ "_" ++ pyStr i) fmt ::
        filter_values_aux field param_key fmt (i + 1) rest

/-- `filter_values` from `_query.py`: the `' OR '`-join of the per-value
predicates in one pair of parentheses, together with all bind-parameter
assignments made along the way. -/
def filter_values (field : String) (values : List (FilterVal α)) (param_key : String)
    (fmt : α → β) : String × List (String × β) :=
  let conds := filter_values_aux field param_key fmt 0 values
  ("(" ++ String.intercalate " OR " (conds.map Prod.fst) ++ ")",
    (conds.map Prod.snd).flatten)

/-- `filter_strings`: `filter_values` with the identity formatter. -/
def filter_strings (field : String) (values : List (FilterVal String)) (param_key : String) :
    String × List (String × String) :=
  filter_values field values param_key (fun x => x)

/-- `filter_integers`: `filter_values` with the identity formatter. -/
def filter_integers (field : String) (values : List (FilterVal Int)) (param_key : String) :
    String × List (String × Int) :=
  filter_values field values param_key (fun x => x)

/-- `filter_dates`: `filter_values` with `date_string` as formatter. -/
def filter_dates (field : String) (values : List (FilterVal Int)) (param_key : String) :
    String × List (String × String) :=
  filter_values field values param_key date_string

/-- A Python value as stored in a raw database row: `None`, an int, a float
(fractions of numeric strings are not modelled) or a string. -/
inductive PyVal where
  | vnull
  | vint (n : Int)
  | vfloat (q : Rat)
  | vstr (s : String)
deriving DecidableEq, Repr

/-- Python `int(v)`: ints pass, floats truncate toward zero, numeric strings
parse, `None` raises `TypeError`. -/
def pyIntOf : PyVal → Except String Int
  | .vnull => .error "TypeError: int() argument is None"
  | .vint n => .ok n
  | .vfloat q => .ok (if 0 ≤ q then ⌊q⌋ else ⌈q⌉)
  | .vstr s =>
    match s.toInt? with
    | some n => .ok n
    | none => .error "ValueError"

/-- Python `float(v)`: `None` raises `TypeError`; ints and integral strings
convert. -/
def pyFloatOf : PyVal → Except String Rat
  | .vnull => .error "TypeError: float() argument is None"
  | .vint n => .ok (n : Rat)
  | .vfloat q => .ok q
  | .vstr s =>
    match s.toInt? with
    | some n => .ok ((n : Int) : Rat)
    | none => .error "ValueError"

/-- A Python dict with string keys, insertion-ordered. -/
abbrev PyDict := List (String × PyVal)

/-- Python `d[k] = v`: overwrite the binding in place when the key exists
(dict keys are unique, so at most one binding matches), else append. -/
def dictSet (d : PyDict) (k : String) (v : PyVal) : PyDict :=
  match d with
  | [] => [(k, v)]
  | p :: rest => if p.1 == k then (k, v) :: rest else p :: dictSet rest k v

/-- Python `d[k]` as an option. -/
def dictGet (d : PyDict) (k : String) : Option PyVal :=
  (d.find? (fun p => p.1 == k)).map Prod.snd

/-- Python `f in row`. -/
def rowHas (row : PyDict) (f : String) : Bool := row.any (fun p => p.1 == f)

/-- Python `row.get(f)`: the stored value, or `None` when absent. -/
def rowGet (row : PyDict) (f : String) : PyVal :=
  match row.find? (fun p => p.1 == f) with
  | some p => p.2
  | none => PyVal.vnull

/-- One assignment of the int/float loops of `parse_row`:
`parsed[f] = coe(row.get(f)) if f in row else None`, a raised coercion error
propagating. -/
def coerceStep (row : PyDict) (coe : PyVal → Except String PyVal) (d : PyDict)
    (f : String) : Except String PyDict :=
  if rowHas row f then
    match coe (rowGet row f) with
    | .ok v => .ok (dictSet d f v)
    | .error e => .error e
  else .ok (dictSet d f PyVal.vnull)

/-- The int/float loop of `parse_row` over its field list: the first raised
coercion error aborts the whole call. -/
def coerceFold (row : PyDict) (coe : PyVal → Except String PyVal) :
    List String → PyDict → Except String PyDict
  | [], d => .ok d
  | f :: rest, d =>
    match coerceStep row coe d f with
    | .ok d1 => coerceFold row coe rest d1
    | .error e => .error e

/-- `parse_row` from `_query.py`: string fields are copied with
`row.get(f)` (no coercion, `None` when absent); int and float fields are
coerced with `int`/`float` when present in the row, and set to `None` when
absent. A coercion failure propagates as the call's exception. -/
def parse_row (row : PyDict) (fields_string fields_int fields_float : List String) :
    Except String PyDict :=
  match coerceFold row (fun v => (pyIntOf v).map PyVal.vint) fields_int
      (fields_string.foldl (fun d f => dictSet d f (rowGet row f)) []) with
  | .error e => .error e
  | .ok d2 =>
    match coerceFold row (fun v => (pyFloatOf v).map PyVal.vfloat) fields_float d2 with
    | .error e => .error e
    | .ok d3 => .ok d3

/-- Decimal value of a digit string, the left inverse used to show `pyStr`
is injective. -/
def digitsVal (l : List Char) : Nat := l.foldl (fun a c => 10 * a + (c.toNat - 48)) 0

/-- The bind-parameter name `param_key_i` generated for the value at
index `i`. -/
def bindName (param_key : String) (i : Nat) : String := param_key ++ "_" ++ pyStr i

/-- The second bind-parameter name `param_key_i_2` of a BETWEEN pair. -/
def bindName2 (param_key : String) (i : Nat) : String := bindName param_key i ++ "_2"

/-- The bind-parameter names produced by `filter_values_aux` from index `i`
on, in generation order. -/
def auxParamNames (field param_key : String) (fmt : α → β) (i : Nat)
    (vs : List (FilterVal α)) : List String :=
  ((filter_values_aux field param_key fmt i vs).map Prod.snd).flatten.map Prod.fst

/-- Stated from the claim: the single SQL predicate expected for the value at
index `i` — an equality for a scalar, an inclusive BETWEEN for a pair, on
bind parameters `param_key_i` (and `param_key_i_2`). -/
def predicateFor (field param_key : String) : Nat × FilterVal α → String
  | (i, .scalar _) => field ++ " = :" ++ param_key ++ "_" ++ pyStr i
  | (i, .pair _ _) =>
      field ++ " BETWEEN :" ++ (param_key ++ "_" ++ pyStr i) ++ " AND :"
        ++ (param_key ++ "_" ++ pyStr i) ++ "_2"

/-- Stated from the claim: the formatted bound value(s) a filter value
contributes — one for a scalar, the two endpoints for a pair. -/
def boundValuesFor (fmt : α → β) : FilterVal α → List β
  | .scalar v => [fmt v]
  | .pair lo hi => [fmt lo, fmt hi]

/-! ## Covidcast signal database

The production `Database.insert_or_update_batch` (module
`delphi.epidata.acquisition.covidcast.database`) is exercised by
`integrations/acquisition/covidcast/test_db.py` but its code is not among
the given sources, so the load/latest/history reconciliation is modelled
from §3 and §4.2 of the specification. -/

/-- The natural key of a covidcast observation:
(source, signal, time_type, time_value, geo_type, geo_value). -/
structure SigKey where
  source : String
  signal : String
  time_type : String
  time_value : Int
  geo_type : String
  geo_value : String
deriving DecidableEq, Repr

/-- A CovidcastRow handed to `insert_or_update_batch`: natural key, the
value/stderr/sample-size payload with missingness codes, issue and lag. -/
structure CovidcastRow where
  key : SigKey
  value : Rat
  stderr : Rat
  sample_size : Rat
  missing_value : Int
  missing_stderr : Int
  missing_sample_size : Int
  issue : Int
  lag : Int
deriving DecidableEq, Repr

/-- A row of the history or latest table: the surrogate `signal_data_id`
acquired in the load table, plus the row content. -/
structure StoredRow where
  signal_data_id : Nat
  row : CovidcastRow
deriving DecidableEq, Repr

/-- Modelled from the spec: the signal database state — the transient load
(staging) table, the append-only History table, the one-row-per-natural-key
Latest table, and the load table's AUTOINCREMENT counter feeding fresh
surrogate ids (§3 "Latest vs. History storage", "Load table"). -/
structure SignalDB where
  load : List StoredRow
  history : List StoredRow
  latest : List StoredRow
  next_id : Nat
deriving DecidableEq, Repr

/-- The freshly provisioned database: all tables empty. -/
def emptyDB : SignalDB := { load := [], history := [], latest := [], next_id := 1 }

/-- Lookup of a history row by natural key and issue. -/
def findHist (hist : List StoredRow) (k : SigKey) (iss : Int) : Option StoredRow :=
  hist.find? (fun h => h.row.key == k && h.row.issue == iss)

/-- Lookup of the latest row for a natural key. -/
def findLat (lat : List StoredRow) (k : SigKey) : Option StoredRow :=
  lat.find? (fun l => l.row.key == k)

/-- Modelled from the spec: steps 4 and 5 of `insert_or_update_batch` (§4.2)
for one load-table row carrying surrogate id `sid`. History: insert the row
with `sid` unless (key, issue) is already present (a duplicate delivery,
not re-inserted). Latest: install the row carrying the id of the History
row for (key, issue) when the key is new or the stored issue is strictly
lower; an existing Latest row with issue ≥ the incoming one is kept. -/
def reconcileRow (hist lat : List StoredRow) (sid : Nat) (r : CovidcastRow) :
    List StoredRow × List StoredRow :=
  let hist' :=
    match findHist hist r.key r.issue with
    | none => hist ++ [⟨sid, r⟩]
    | some _ => hist
  let hid :=
    match findHist hist r.key r.issue with
    | none => sid
    | some h => h.signal_data_id
  let lat' :=
    match findLat lat r.key with
    | none => lat ++ [⟨hid, r⟩]
    | some lr =>
      if lr.row.issue < r.issue then
        lat.filter (fun l => !(l.row.key == r.key)) ++ [⟨hid, r⟩]
      else lat
  (hist', lat')

/-- Step 2 of `insert_or_update_batch`: each row of the batch acquires a
fresh AUTOINCREMENT surrogate id in load-table order. -/
def assignIds : Nat → List CovidcastRow → List (Nat × CovidcastRow)
  | _, [] => []
  | n, r :: rest => (n, r) :: assignIds (n + 1) rest

/-- Reconciliation of the whole load table into (History, Latest). -/
def reconcileAll : List StoredRow × List StoredRow → List (Nat × CovidcastRow) →
    List StoredRow × List StoredRow
  | st, [] => st
  | (hist, lat), (sid, r) :: rest => reconcileAll (reconcileRow hist lat sid r) rest

/-- Log severity; the load-table precondition violation logs at the highest
level. -/
inductive Severity where
  | info
  | warning
  | critical
deriving DecidableEq, Repr

/-- The error raised by `insert_or_update_batch` on a non-empty load table,
with the severity at which it is logged. -/
structure BatchError where
  severity : Severity
  message : String
deriving DecidableEq, Repr

/-- Modelled from the spec: `insert_or_update_batch` (§4.2). Precondition:
the load table must be empty, else the batch fails with an integrity error
logged at critical severity and nothing is mutated. Otherwise the rows
acquire fresh surrogate ids, are reconciled into History and Latest, and
the load table is left empty again. -/
def insert_or_update_batch (db : SignalDB) (rows : List CovidcastRow) :
    Except BatchError SignalDB :=
  if db.load.isEmpty then
    let st := reconcileAll (db.history, db.latest) (assignIds db.next_id rows)
    Except.ok
      { load := [], history := st.1, latest := st.2, next_id := db.next_id + rows.length }
  else
    Except.error { severity := Severity.critical, message := "load table is not empty" }

/-- Run one batch: since the precondition check precedes any mutation, the
failing case leaves the state untouched. -/
def applyBatch (db : SignalDB) (rows : List CovidcastRow) : SignalDB :=
  match insert_or_update_batch db rows with
  | .ok db' => db'
  | .error _ => db

/-- States reachable from the empty database by a sequence of batches. -/
def Reachable (db : SignalDB) : Prop :=
  ∃ batches : List (List CovidcastRow), db = batches.foldl applyBatch emptyDB

/-- The id-sync invariant between a latest table and a history table: every
Latest row is backed by a History row with the same natural key, the same
issue and the same surrogate id. -/
def idSyncTables (hist lat : List StoredRow) : Prop :=
  ∀ lr ∈ lat, ∃ hr ∈ hist,
    hr.row.key = lr.row.key ∧ hr.row.issue = lr.row.issue
      ∧ hr.signal_data_id = lr.signal_data_id

/-- The id-sync invariant of a database state. -/
def idSync (db : SignalDB) : Prop := idSyncTables db.history db.latest

/-- All surrogate ids in both tables are below the AUTOINCREMENT counter. -/
def idsBelow (n : Nat) (hist lat : List StoredRow) : Prop :=
  (∀ h ∈ hist, h.signal_data_id < n) ∧ (∀ l ∈ lat, l.signal_data_id < n)

/-- Latest holds at most one row per natural key. -/
def latestKeysUnique (lat : List StoredRow) : Prop :=
  List.Pairwise (fun a b => a.row.key ≠ b.row.key) lat

/-- The inductive invariant of the signal database. -/
def SignalDBInv (db : SignalDB) : Prop :=
  idSync db ∧ idsBelow db.next_id db.history db.latest ∧ latestKeysUnique db.latest

/-- The sample row of the integration test `test_db.py`:
`CovidcastRow('src', 'sig', 'day', 'state', 20220222, 'pa', 2, 22, 222,
nmv, nmv, nmv, 20220222, 0)` with `nmv = Nans.NOT_MISSING`. -/
def sampleKey : SigKey :=
  { source := "src", signal := "sig", time_type := "day", time_value := 20220222,
    geo_type := "state", geo_value := "pa" }

def sampleRow : CovidcastRow :=
  { key := sampleKey,
    value := 2, stderr := 22, sample_size := 222,
    missing_value := 0, missing_stderr := 0, missing_sample_size := 0,
    issue := 20220222, lag := 0 }

/-- The reissue of `sampleRow` at the next issue, as in `test_id_sync`. -/
def sampleReissue : CovidcastRow := { sampleRow with issue := 20220223 }

/-- A database whose load table was left non-empty by a failed run, as
staged by `test_empty_load_table`. -/
def loadedDB : SignalDB :=
  { load := [⟨100, sampleRow⟩], history := [], latest := [], next_id := 101 }

/-! ## Covidcast nowcast serving endpoint

The server module implementing `/covidcast_nowcast` is exercised by
`integrations/server/test_covidcast_nowcast.py` but is not among the given
sources; the issue-selection policy is modelled from §4.4 of the
specification. -/

/-- The natural key of a nowcast observation:
(source, signal, sensor_name, time_type, time_value, geo_type, geo_value). -/
structure NowcastKey where
  source : String
  signal : String
  sensor : String
  time_type : String
  time_value : Int
  geo_type : String
  geo_value : String
deriving DecidableEq, Repr

/-- A stored nowcast row: natural key, value, issue and lag. -/
structure NowcastRow where
  key : NowcastKey
  value : Rat
  issue : Int
  lag : Int
deriving DecidableEq, Repr

/-- A nowcast query: the natural-key filters plus the optional explicit
`issues` selector and the optional `as_of` upper bound. -/
structure NowcastQuery where
  data_source : String
  signals : List String
  sensor_names : List String
  time_type : String
  geo_type : String
  time_values : List Int
  geo_value : String
  issues : Option (List Int)
  as_of : Option Int
deriving DecidableEq, Repr

/-- Whether a stored row matches the query's natural-key filters. -/
def rowMatches (q : NowcastQuery) (r : NowcastRow) : Bool :=
  r.key.source == q.data_source && q.signals.contains r.key.signal
    && q.sensor_names.contains r.key.sensor && r.key.time_type == q.time_type
    && r.key.geo_type == q.geo_type && q.time_values.contains r.key.time_value
    && r.key.geo_value == q.geo_value

/-- Whether a row's issue lies under the optional `as_of` bound. -/
def withinBound (bound : Option Int) (s : NowcastRow) : Bool :=
  match bound with
  | none => true
  | some b => decide (s.issue ≤ b)

/-- Whether `r` carries the highest issue among the matching rows of its
natural key, restricted to rows under the optional bound. -/
def isLatestIssue (rows : List NowcastRow) (q : NowcastQuery) (bound : Option Int)
    (r : NowcastRow) : Bool :=
  decide (∀ s ∈ rows, rowMatches q s = true → s.key = r.key →
    withinBound bound s = true → s.issue ≤ r.issue)

/-- Modelled from the spec: the issue-selection policy of the
`covidcast_nowcast` endpoint (§4.4). With explicit `issues`, exactly the
matching rows at those issues; else with `as_of`, per natural key the row
with the highest issue ≤ the bound; else per natural key the row with the
highest issue overall. -/
def nowcast_query (rows : List NowcastRow) (q : NowcastQuery) : List NowcastRow :=
  match q.issues with
  | some iss => rows.filter (fun r => rowMatches q r && iss.contains r.issue)
  | none =>
    match q.as_of with
    | some b =>
      rows.filter (fun r => rowMatches q r && decide (r.issue ≤ b)
        && isLatestIssue rows q (some b) r)
    | none => rows.filter (fun r => rowMatches q r && isLatestIssue rows q none r)

/-- The natural key shared by the three rows of the integration test
`test_covidcast_nowcast.py`. -/
def nowcastTestKey : NowcastKey :=
  { source := "src", signal := "sig", sensor := "sensor", time_type := "day",
    time_value := 20200101, geo_type := "county", geo_value := "01001" }

/-- Test row at issue 20200101 with value 3.5. -/
def nowcastRow1 : NowcastRow :=
  { key := nowcastTestKey, value := 3.5, issue := 20200101, lag := 2 }

/-- Test row at issue 20200102 with value 2.5. -/
def nowcastRow2 : NowcastRow :=
  { key := nowcastTestKey, value := 2.5, issue := 20200102, lag := 2 }

/-- Test row at issue 20200103 with value 1.5. -/
def nowcastRow3 : NowcastRow :=
  { key := nowcastTestKey, value := 1.5, issue := 20200103, lag := 2 }

/-- The query of the integration test, parameterized by its issue selector
and `as_of` bound. -/
def nowcastTestQuery (iss : Option (List Int)) (as_of : Option Int) : NowcastQuery :=
  { data_source := "src", signals := ["sig"], sensor_names := ["sensor"],
    time_type := "day", geo_type := "county", time_values := [20200101],
    geo_value := "01001", issues := iss, as_of := as_of }

/-! ## Hospitalization acquisition pipeline

`Update.run`, `Utils.update_dataset` and the state_daily `Database` are
exercised by `test_scenarios.py` but are not among the given sources; the
acquisition loop is modelled from §4.1 of the specification. -/

/-- A row of the upstream hospitalization dataset: state, date and the
nullable metric columns. -/
structure HospRow where
  state : String
  date : Int
  metrics : List (String × Option Rat)
deriving DecidableEq, Repr

/-- Modelled from the spec: the hospitalization storage — the
(state, date, issue)-keyed timeseries table plus the per-issue acquisition
log (`covid_hosp_meta`) whose maximum issue is the pipeline's high-water
mark (§4.1, §6 storage schema). -/
structure HospDB where
  timeseries : List (Int × HospRow)
  meta_issues : List Int
deriving DecidableEq, Repr

/-- Empty hospitalization storage. -/
def emptyHospDB : HospDB := { timeseries := [], meta_issues := [] }

/-- `get_max_issue`: the maximum issue recorded by previous acquisitions,
or the epoch sentinel 1900-01-01 when storage is empty. -/
def get_max_issue (db : HospDB) : Int :=
  db.meta_issues.foldl max 19000101

/-- Upsert one issue's merged partition rows: an incoming (state, date,
issue) that duplicates a stored one overwrites it; the issue is recorded in
the acquisition log. -/
def upsertIssue (db : HospDB) (issue : Int) (rows : List HospRow) : HospDB :=
  { timeseries :=
      db.timeseries.filter (fun p =>
        !(p.1 == issue && rows.any (fun r => r.state == p.2.state && r.date == p.2.date)))
        ++ rows.map (fun r => (issue, r)),
    meta_issues := db.meta_issues ++ [issue] }

/-- Modelled from the spec: `Update.run` (§4.1) — fetch the metadata once
(`meta` lists each available issue, in increasing issue order, with its
dataset partitions), keep the issues strictly newer than the stored maximum,
acquire each by merging its partitions and upserting, and report whether
anything new was acquired. -/
def hosp_run (db : HospDB) (meta : List (Int × List (List HospRow))) : Bool × HospDB :=
  let maxi := get_max_issue db
  let newIssues := meta.filter (fun p => decide (maxi < p.1))
  (!newIssues.isEmpty, newIssues.foldl (fun s p => upsertIssue s p.1 p.2.flatten) db)

/-- The Wyoming fixture row of `test_scenarios.py`. -/
def wyRow : HospRow :=
  { state := "WY", date := 20201209,
    metrics :=
      [("critical_staffing_shortage_today_yes", some 8),
       ("critical_staffing_shortage_today_no", none),
       ("total_patients_hospitalized_confirmed_influenza_covid_coverage", some 56)] }

/-- The test metadata: issues 2021-03-13 and 2021-03-15, each delivered as
dataset partitions for Wyoming. -/
def hospTestMeta : List (Int × List (List HospRow)) :=
  [(20210313, [[wyRow]]), (20210315, [[wyRow]])]

end Epidata

namespace Epidata

/-- C4: API-key deprecation classification. With hard-warning date
`cutover − 14` and soft-warning date `cutover − 28`: the soft warning shows
iff the caller is anonymous and today lies in `[soft, hard)`; the hard warning
shows iff the caller is anonymous and today lies in `[hard, cutover)`;
`require_api_key` holds iff today ≥ cutover, regardless of the caller; and
both warnings are false for an authenticated caller on every date. -/
theorem C4_api_key_deprecation_classification (cutover today : Int) (user : Option User) :
    API_KEY_HARD_WARNING cutover = cutover - 14
    ∧ API_KEY_SOFT_WARNING cutover = cutover - 28
    ∧ (show_soft_api_key_warning cutover user today = true ↔
        user = none ∧ API_KEY_SOFT_WARNING cutover ≤ today
          ∧ today < API_KEY_HARD_WARNING cutover)
    ∧ (show_hard_api_key_warning cutover user today = true ↔
        user = none ∧ API_KEY_HARD_WARNING cutover ≤ today ∧ today < cutover)
    ∧ (require_api_key cutover today = true ↔ cutover ≤ today)
    ∧ (∀ u : User, show_soft_api_key_warning cutover (some u) today = false
        ∧ show_hard_api_key_warning cutover (some u) today = false) := by
  refine ⟨rfl, ?_, ?_, ?_, ?_, ?_⟩
  · simp [API_KEY_SOFT_WARNING, API_KEY_HARD_WARNING]; ring
  · cases user <;>
      simp [show_soft_api_key_warning, Option.isNone]
  · cases user <;>
      simp [show_hard_api_key_warning, Option.isNone]
  · simp [require_api_key]
  · intro u
    constructor <;> simp [show_soft_api_key_warning, show_hard_api_key_warning, Option.isNone]

/-- C5: auth-token resolution precedence. `resolve_auth_token` returns the
first present request parameter among `auth`, `api_key`, `token` in that
order; failing those, the HTTP Basic password when the Basic username is
exactly `epidata`; failing that, the remainder of a `Bearer ` Authorization
header; otherwise no token. In particular a request carrying both a `token`
parameter and Basic credentials resolves to the parameter's value. -/
theorem C5_resolve_auth_token_precedence (r : Request) :
    (∀ v, r.param "auth" = some v → resolve_auth_token r = some v)
    ∧ (∀ v, r.param "auth" = none → r.param "api_key" = some v →
        resolve_auth_token r = some v)
    ∧ (∀ v, r.param "auth" = none → r.param "api_key" = none →
        r.param "token" = some v → resolve_auth_token r = some v)
    ∧ (∀ p, r.param "auth" = none → r.param "api_key" = none →
        r.param "token" = none → r.authorization = some ("epidata", p) →
        resolve_auth_token r = some p)
    ∧ (∀ h, r.param "auth" = none → r.param "api_key" = none →
        r.param "token" = none →
        (∀ u p, r.authorization = some (u, p) → u ≠ "epidata") →
        r.authorizationHeader = some h → pyStartsWith h "Bearer " = true →
        resolve_auth_token r = some (pyDrop h 7))
    ∧ (r.param "auth" = none → r.param "api_key" = none →
        r.param "token" = none →
        (∀ u p, r.authorization = some (u, p) → u ≠ "epidata") →
        (∀ h, r.authorizationHeader = some h → pyStartsWith h "Bearer " = false) →
        resolve_auth_token r = none)
    ∧ (∀ v p, r.param "auth" = none → r.param "api_key" = none →
        r.param "token" = some v → r.authorization = some ("epidata", p) →
        resolve_auth_token r = some v) := by
  refine ⟨?_, ?_, ?_, ?_, ?_, ?_, ?_⟩
  · intro v h1; simp [resolve_auth_token, h1]
  · intro v h1 h2; simp [resolve_auth_token, h1, h2]
  · intro v h1 h2 h3; simp [resolve_auth_token, h1, h2, h3]
  · intro p h1 h2 h3 h4; simp [resolve_auth_token, h1, h2, h3, h4]
  · intro h h1 h2 h3 h4 h5 h6
    simp only [resolve_auth_token, h1, h2, h3]
    cases hauth : r.authorization with
    | none => simp [bearerToken, h5, h6]
    | some up =>
      have hne : up.1 ≠ "epidata" := h4 up.1 up.2 (by rw [hauth])
      simp [hne, bearerToken, h5, h6]
  · intro h1 h2 h3 h4 h5
    simp only [resolve_auth_token, h1, h2, h3]
    have hb : bearerToken r = none := by
      unfold bearerToken
      cases hh : r.authorizationHeader with
      | none => rfl
      | some h => simp [h5 h hh]
    cases hauth : r.authorization with
    | none => exact hb
    | some up =>
      have hne : up.1 ≠ "epidata" := h4 up.1 up.2 (by rw [hauth])
      simp [hne, hb]
  · intro v p h1 h2 h3 _; simp [resolve_auth_token, h1, h2, h3]

/-- Witness for C5 at a concrete request that carries both a `token`
parameter and HTTP Basic credentials: the parameter's value wins. -/
theorem C5_resolve_auth_token_precedence_witness :
    resolve_auth_token
      { values := [("token", "param-value")],
        authorization := some ("epidata", "basic-password"),
        authorizationHeader := none, path := "/epidata/covidcast_meta" }
      = some "param-value" :=
  (C5_resolve_auth_token_precedence
      { values := [("token", "param-value")],
        authorization := some ("epidata", "basic-password"),
        authorizationHeader := none, path := "/epidata/covidcast_meta" }).2.2.2.2.2.2
    "param-value" "basic-password" rfl rfl rfl rfl

/-- C6 counterexample: a request whose path lies under the allowlisted `lib`
prefix is recognized by `_is_public_route`, yet a handler wrapped with
`require_role` of a nonempty role still rejects the anonymous caller —
`require_role` performs no public-route bypass. -/
theorem C6_counterexample :
    is_public_route "/epidata" "/epidata/lib/current" = true
    ∧ require_role "quidel" "/epidata/lib/current" none = RouteOutcome.unauthorized := by
  constructor
  · decide
  · decide

/-- C6 amended: `_is_public_route` recognizes exactly the paths under the
`lib`, `admin` and `version` prefixes, but `require_role` does not consult
it — its outcome is independent of the request path, and with a nonempty
required role it rejects every anonymous caller, allowlisted path or not.
The authentication bypass for public routes is not implemented inside
`require_role`. -/
theorem C6_require_role_ignores_public_routes (role p₁ p₂ : String) (user : Option User) :
    require_role role p₁ user = require_role role p₂ user
    ∧ (role ≠ "" → require_role role p₁ none = RouteOutcome.unauthorized)
    ∧ (∀ urlBase path, is_public_route urlBase path = true ↔
        (pyStartsWith path (urlBase ++ "/" ++ "lib") = true
          ∨ pyStartsWith path (urlBase ++ "/" ++ "admin") = true
          ∨ pyStartsWith path (urlBase ++ "/" ++ "version") = true)) := by
  refine ⟨rfl, ?_, ?_⟩
  · intro hrole
    simp [require_role, hrole]
  · intro urlBase path
    simp [is_public_route, public_routes_list]

/-- Witness for C6 amended, at a concrete allowlisted path and role. -/
theorem C6_require_role_ignores_public_routes_witness :
    require_role "quidel" "/epidata/lib/current" none = RouteOutcome.unauthorized :=
  (C6_require_role_ignores_public_routes "quidel" "/epidata/lib/current" "/other" none).2.1
    (by decide)

theorem char_toNat_digit (k : Nat) (h : k < 10) : (Char.ofNat (48 + k)).toNat = 48 + k := by
  interval_cases k <;> decide

theorem natDigitsAux_digits {fuel n : Nat} {c : Char} (hc : c ∈ natDigitsAux fuel n) :
    48 ≤ c.toNat ∧ c.toNat ≤ 57 := by
  induction fuel generalizing n with
  | zero => simp [natDigitsAux] at hc
  | succ fuel ih =>
    unfold natDigitsAux at hc
    by_cases h : n < 10
    · simp [h] at hc
      subst hc
      rw [char_toNat_digit n h]
      omega
    · simp [h] at hc
      rcases hc with hc | hc
      · exact ih hc
      · subst hc
        rw [char_toNat_digit (n % 10) (by omega)]
        omega

theorem natDigitsAux_foldl (fuel : Nat) :
    ∀ n a, n ≤ fuel →
      List.foldl (fun a c => 10 * a + (c.toNat - 48)) a (natDigitsAux (fuel + 1) n)
        = a * 10 ^ (natDigitsAux (fuel + 1) n).length + n := by
  induction fuel with
  | zero =>
    intro n a hn
    interval_cases n
    show List.foldl _ a [Char.ofNat 48] = a * 10 ^ ([Char.ofNat 48].length) + 0
    simp [List.foldl]
    omega
  | succ fuel ih =>
    intro n a hn
    by_cases h : n < 10
    · have hlist : natDigitsAux (fuel + 1 + 1) n = [Char.ofNat (48 + n)] := by
        show (if n < 10 then _ else _) = _
        rw [if_pos h]
      rw [hlist]
      simp [List.foldl, char_toNat_digit n h]
      omega
    · have hdiv : n / 10 ≤ fuel := by omega
      have hlist : natDigitsAux (fuel + 1 + 1) n
          = natDigitsAux (fuel + 1) (n / 10) ++ [Char.ofNat (48 + n % 10)] := by
        show (if n < 10 then _ else _) = _
        rw [if_neg h]
      rw [hlist, List.foldl_append, ih (n / 10) a hdiv]
      simp [List.foldl, char_toNat_digit (n % 10) (by omega), pow_succ]
      have hK : 0 < 10 ^ (natDigitsAux (fuel + 1) (n / 10)).length := Nat.pos_pow_of_pos _ (by omega)
      generalize (10 : Nat) ^ (natDigitsAux (fuel + 1) (n / 10)).length = K at hK ⊢
      have h10 : 10 * (n / 10) + n % 10 = n := Nat.div_add_mod n 10
      nlinarith [hK, h10]

theorem digitsVal_pyStr (n : Nat) : digitsVal (pyStr n).data = n := by
  have h := natDigitsAux_foldl n n 0 le_rfl
  simpa [digitsVal, pyStr] using h

theorem pyStr_data_inj {m n : Nat} (h : (pyStr m).data = (pyStr n).data) : m = n := by
  have h1 : digitsVal (pyStr m).data = digitsVal (pyStr n).data := by rw [h]
  simpa [digitsVal_pyStr] using h1

theorem underscore_not_mem_pyStr (n : Nat) : '_' ∉ (pyStr n).data := by
  intro hc
  have hd : (48 : Nat) ≤ ('_' : Char).toNat ∧ ('_' : Char).toNat ≤ 57 :=
    @natDigitsAux_digits (n + 1) n '_' hc
  have : ('_' : Char).toNat = 95 := by decide
  omega

theorem bindName_data (pk : String) (i : Nat) :
    (bindName pk i).data = pk.data ++ '_' :: (pyStr i).data := by
  simp [bindName, String.data_append]

theorem bindName2_data (pk : String) (i : Nat) :
    (bindName2 pk i).data = pk.data ++ '_' :: ((pyStr i).data ++ ['_', '2']) := by
  simp [bindName2, bindName, String.data_append]

theorem bindName_inj {pk : String} {i j : Nat} (h : bindName pk i = bindName pk j) : i = j := by
  have hd := congrArg String.data h
  rw [bindName_data, bindName_data] at hd
  have h1 := List.append_cancel_left hd
  exact pyStr_data_inj (List.cons_injective h1)

theorem bindName_ne_bindName2 (pk : String) (i j : Nat) : bindName pk i ≠ bindName2 pk j := by
  intro h
  have hd := congrArg String.data h
  rw [bindName_data, bindName2_data] at hd
  have h1 := List.cons_injective (List.append_cancel_left hd)
  have : '_' ∈ (pyStr i).data := by
    rw [h1]
    simp
  exact underscore_not_mem_pyStr i this

theorem bindName2_inj {pk : String} {i j : Nat} (h : bindName2 pk i = bindName2 pk j) :
    i = j := by
  have hd := congrArg String.data h
  rw [bindName2_data, bindName2_data] at hd
  have h1 := List.cons_injective (List.append_cancel_left hd)
  exact pyStr_data_inj (List.append_cancel_right h1)

theorem auxParamNames_nil (field pk : String) (fmt : α → β) (i : Nat) :
    auxParamNames field pk fmt i [] = [] := rfl

theorem auxParamNames_cons_scalar (field pk : String) (fmt : α → β) (i : Nat) (v : α)
    (rest : List (FilterVal α)) :
    auxParamNames field pk fmt i (FilterVal.scalar v :: rest)
      = bindName pk i :: auxParamNames field pk fmt (i + 1) rest := by
  simp [auxParamNames, filter_values_aux, to_condition, bindName]

theorem auxParamNames_cons_pair (field pk : String) (fmt : α → β) (i : Nat) (lo hi : α)
    (rest : List (FilterVal α)) :
    auxParamNames field pk fmt i (FilterVal.pair lo hi :: rest)
      = bindName pk i :: bindName2 pk i :: auxParamNames field pk fmt (i + 1) rest := by
  simp [auxParamNames, filter_values_aux, to_condition, bindName, bindName2]

theorem mem_auxParamNames {field pk : String} {fmt : α → β} :
    ∀ (vs : List (FilterVal α)) (i : Nat) (s : String),
      s ∈ auxParamNames field pk fmt i vs →
      ∃ j, i ≤ j ∧ (s = bindName pk j ∨ s = bindName2 pk j) := by
  intro vs
  induction vs with
  | nil => intro i s hs; simp [auxParamNames_nil] at hs
  | cons v rest ih =>
    intro i s hs
    cases v with
    | scalar v0 =>
      rw [auxParamNames_cons_scalar] at hs
      rcases List.mem_cons.mp hs with rfl | hs
      · exact ⟨i, le_rfl, Or.inl rfl⟩
      · obtain ⟨j, hj, hcase⟩ := ih (i + 1) s hs
        exact ⟨j, by omega, hcase⟩
    | pair lo hi =>
      rw [auxParamNames_cons_pair] at hs
      rcases List.mem_cons.mp hs with rfl | hs
      · exact ⟨i, le_rfl, Or.inl rfl⟩
      · rcases List.mem_cons.mp hs with rfl | hs
        · exact ⟨i, le_rfl, Or.inr rfl⟩
        · obtain ⟨j, hj, hcase⟩ := ih (i + 1) s hs
          exact ⟨j, by omega, hcase⟩

theorem auxParamNames_nodup (field pk : String) (fmt : α → β) :
    ∀ (vs : List (FilterVal α)) (i : Nat), (auxParamNames field pk fmt i vs).Nodup := by
  intro vs
  induction vs with
  | nil => intro i; simp [auxParamNames_nil]
  | cons v rest ih =>
    intro i
    have hnotin : ∀ s, s ∈ auxParamNames field pk fmt (i + 1) rest →
        s ≠ bindName pk i ∧ s ≠ bindName2 pk i := by
      intro s hs
      obtain ⟨j, hj, hcase⟩ := mem_auxParamNames rest (i + 1) s hs
      rcases hcase with rfl | rfl
      · constructor
        · intro h; exact absurd (bindName_inj h) (by omega)
        · intro h; exact absurd h (bindName_ne_bindName2 pk j i)
      · constructor
        · intro h; exact absurd h.symm (bindName_ne_bindName2 pk i j)
        · intro h; exact absurd (bindName2_inj h) (by omega)
    cases v with
    | scalar v0 =>
      rw [auxParamNames_cons_scalar]
      refine List.Nodup.cons ?_ (ih (i + 1))
      intro hmem
      exact (hnotin _ hmem).1 rfl
    | pair lo hi =>
      rw [auxParamNames_cons_pair]
      refine List.Nodup.cons ?_ (List.Nodup.cons ?_ (ih (i + 1)))
      · intro hmem
        rcases List.mem_cons.mp hmem with h | h
        · exact bindName_ne_bindName2 pk i i h
        · exact (hnotin _ h).1 rfl
      · intro hmem
        exact (hnotin _ hmem).2 rfl

theorem filter_values_aux_map_fst (field pk : String) (fmt : α → β) :
    ∀ (vs : List (FilterVal α)) (i : Nat),
      (filter_values_aux field pk fmt i vs).map Prod.fst
        = (List.enumFrom i vs).map (predicateFor field pk) := by
  intro vs
  induction vs with
  | nil => intro i; rfl
  | cons v rest ih =>
    intro i
    cases v with
    | scalar v0 =>
      simp only [filter_values_aux, to_condition, List.map_cons, List.enumFrom_cons, ih,
        predicateFor]
      congr 1
      apply String.ext
      simp [String.data_append]
    | pair lo hi =>
      simp only [filter_values_aux, to_condition, List.map_cons, List.enumFrom_cons, ih,
        predicateFor]

theorem filter_values_aux_bound_values (field pk : String) (fmt : α → β) :
    ∀ (vs : List (FilterVal α)) (i : Nat),
      ((filter_values_aux field pk fmt i vs).map Prod.snd).flatten.map Prod.snd
        = (vs.map (boundValuesFor fmt)).flatten := by
  intro vs
  induction vs with
  | nil => intro i; rfl
  | cons v rest ih =>
    intro i
    cases v with
    | scalar v0 =>
      simp only [filter_values_aux, to_condition, List.map_cons, List.flatten_cons,
        List.map_append, ih, boundValuesFor]
      rfl
    | pair lo hi =>
      simp only [filter_values_aux, to_condition, List.map_cons, List.flatten_cons,
        List.map_append, ih, boundValuesFor]
      rfl

/-- C7 amended: for every non-empty sequence of filter values, `filter_values`
emits exactly one predicate per value — `field = :param_key_i` for a scalar
and an inclusive `field BETWEEN :param_key_i AND :param_key_i_2` for a pair —
joined by `' OR '` inside one pair of parentheses, with the formatter applied
to each bound value, and all bind-parameter names generated by the single
call are distinct. (Uniqueness across multiple helper calls in one query is
not guaranteed by the function: the running index restarts at 0 per call, so
it holds only when the callers pass suitably distinct `param_key`s — see the
counterexample.) -/
theorem C7_filter_values_predicates (field pk : String) (fmt : α → β)
    (vs : List (FilterVal α)) (_hvs : vs ≠ []) :
    (filter_values field vs pk fmt).1
        = "(" ++ String.intercalate " OR " (vs.enum.map (predicateFor field pk)) ++ ")"
    ∧ (filter_values field vs pk fmt).2.map Prod.snd = (vs.map (boundValuesFor fmt)).flatten
    ∧ ((filter_values field vs pk fmt).2.map Prod.fst).Nodup := by
  refine ⟨?_, ?_, ?_⟩
  · show "(" ++ String.intercalate " OR "
        ((filter_values_aux field pk fmt 0 vs).map Prod.fst) ++ ")" = _
    rw [filter_values_aux_map_fst]
    rfl
  · exact filter_values_aux_bound_values field pk fmt vs 0
  · exact auxParamNames_nodup field pk fmt vs 0

/-- Witness for C7 amended, on a concrete two-value date filter (a range pair
and a scalar): the emitted clause, the formatted bound values and the
distinctness of the generated names, all computed. -/
theorem C7_filter_values_predicates_witness :
    (filter_dates "time_value" [FilterVal.pair 20200101 20200103, FilterVal.scalar 20200115]
        "tv").1
      = "(time_value BETWEEN :tv_0 AND :tv_0_2 OR time_value = :tv_1)"
    ∧ (filter_dates "time_value"
        [FilterVal.pair 20200101 20200103, FilterVal.scalar 20200115] "tv").2.map Prod.snd
      = ["2020-01-01", "2020-01-03", "2020-01-15"]
    ∧ ((filter_dates "time_value"
        [FilterVal.pair 20200101 20200103, FilterVal.scalar 20200115] "tv").2.map
          Prod.fst).Nodup := by
  have h := C7_filter_values_predicates "time_value" "tv" date_string
    [FilterVal.pair 20200101 20200103, FilterVal.scalar 20200115] (by simp)
  refine ⟨?_, ?_, h.2.2⟩
  · rw [show (filter_dates "time_value"
        [FilterVal.pair 20200101 20200103, FilterVal.scalar 20200115] "tv").1
      = (filter_values "time_value"
        [FilterVal.pair 20200101 20200103, FilterVal.scalar 20200115] "tv" date_string).1
      from rfl, h.1]
    decide
  · rw [show (filter_dates "time_value"
        [FilterVal.pair 20200101 20200103, FilterVal.scalar 20200115] "tv").2
      = (filter_values "time_value"
        [FilterVal.pair 20200101 20200103, FilterVal.scalar 20200115] "tv" date_string).2
      from rfl, h.2.1]
    decide

/-- C7 counterexample: two helper calls filtering the same field with the
same `param_key` both generate the bind-parameter name `k_0`, so the names
are not unique within the whole query — the running index alone does not
make them unique across calls. -/
theorem C7_counterexample :
    (filter_strings "geo_value" [FilterVal.scalar "pa"] "k").2.map Prod.fst = ["k_0"]
    ∧ (filter_integers "geo_value" [FilterVal.scalar 1] "k").2.map Prod.fst = ["k_0"]
    ∧ ¬ (((filter_strings "geo_value" [FilterVal.scalar "pa"] "k").2.map Prod.fst
        ++ (filter_integers "geo_value" [FilterVal.scalar 1] "k").2.map Prod.fst).Nodup) := by
  refine ⟨by decide, by decide, by decide⟩

/-- C10: `filter_values` on an empty sequence of values returns the
degenerate clause `"()"` and makes no bind-parameter assignments; in the
embedding it is a total function, so the empty input raises nothing. -/
theorem C10_filter_values_empty (field pk : String) (fmt : α → β) :
    filter_values field [] pk fmt = ("()", []) := rfl

theorem dictGet_dictSet_self (d : PyDict) (k : String) (v : PyVal) :
    dictGet (dictSet d k v) k = some v := by
  induction d with
  | nil =>
    unfold dictSet dictGet
    rw [List.find?_cons_of_pos _ (by simp)]
    rfl
  | cons p rest ih =>
    by_cases h : p.1 = k
    · rw [show dictSet (p :: rest) k v = (k, v) :: rest by simp [dictSet, h]]
      unfold dictGet
      rw [List.find?_cons_of_pos _ (by simp)]
      rfl
    · rw [show dictSet (p :: rest) k v = p :: dictSet rest k v by simp [dictSet, h]]
      unfold dictGet
      rw [List.find?_cons_of_neg _ (by simpa using h)]
      exact ih

theorem dictGet_dictSet_ne (d : PyDict) {k k' : String} (h : k ≠ k') (v : PyVal) :
    dictGet (dictSet d k' v) k = dictGet d k := by
  induction d with
  | nil =>
    unfold dictSet dictGet
    rw [List.find?_cons_of_neg _ (by simpa using Ne.symm h)]
  | cons p rest ih =>
    by_cases hp : p.1 = k'
    · rw [show dictSet (p :: rest) k' v = (k', v) :: rest by simp [dictSet, hp]]
      unfold dictGet
      rw [List.find?_cons_of_neg _ (by simpa using Ne.symm h),
        List.find?_cons_of_neg _ (by simp [hp]; exact Ne.symm h)]
    · rw [show dictSet (p :: rest) k' v = p :: dictSet rest k' v by simp [dictSet, hp]]
      unfold dictGet
      by_cases hk : p.1 = k
      · rw [List.find?_cons_of_pos _ (by simpa using hk),
          List.find?_cons_of_pos _ (by simpa using hk)]
      · rw [List.find?_cons_of_neg _ (by simpa using hk),
          List.find?_cons_of_neg _ (by simpa using hk)]
        exact ih

theorem rowGet_of_not_has {row : PyDict} {f : String} (h : rowHas row f = false) :
    rowGet row f = PyVal.vnull := by
  unfold rowGet
  cases hf : row.find? (fun p => p.1 == f) with
  | none => rfl
  | some p =>
    exfalso
    have hmem := List.find?_some hf
    have : row.any (fun p => p.1 == f) = true :=
      List.any_eq_true.mpr ⟨p, List.mem_of_find?_eq_some hf, hmem⟩
    rw [rowHas] at h
    rw [h] at this
    exact Bool.false_ne_true this

theorem stringFold_not_mem {row : PyDict} {f : String} :
    ∀ (l : List String) (d : PyDict), f ∉ l →
      dictGet (List.foldl (fun d g => dictSet d g (rowGet row g)) d l) f = dictGet d f := by
  intro l
  induction l with
  | nil => intro d _; rfl
  | cons a rest ih =>
    intro d hf
    have hfa : f ≠ a := fun hEq => hf (by rw [hEq]; exact List.mem_cons_self a rest)
    rw [List.foldl_cons, ih _ (fun h => hf (List.mem_cons_of_mem a h))]
    exact dictGet_dictSet_ne d hfa _

theorem stringFold_mem {row : PyDict} {f : String} :
    ∀ (l : List String) (d : PyDict), f ∈ l →
      dictGet (List.foldl (fun d g => dictSet d g (rowGet row g)) d l) f
        = some (rowGet row f) := by
  intro l
  induction l with
  | nil => intro d hf; simp at hf
  | cons a rest ih =>
    intro d hf
    rw [List.foldl_cons]
    by_cases hrest : f ∈ rest
    · exact ih _ hrest
    · have hfa : f = a := by
        rcases List.mem_cons.mp hf with h | h
        · exact h
        · exact absurd h hrest
      subst hfa
      rw [stringFold_not_mem rest _ hrest, dictGet_dictSet_self]

theorem coerceFold_cons_ok {row : PyDict} {coe : PyVal → Except String PyVal} {a : String}
    {rest : List String} {d d1 : PyDict} (hs : coerceStep row coe d a = Except.ok d1) :
    coerceFold row coe (a :: rest) d = coerceFold row coe rest d1 := by
  simp only [coerceFold, hs]

theorem coerceFold_cons_err {row : PyDict} {coe : PyVal → Except String PyVal} {a : String}
    {rest : List String} {d : PyDict} {e : String}
    (hs : coerceStep row coe d a = Except.error e) :
    coerceFold row coe (a :: rest) d = Except.error e := by
  simp only [coerceFold, hs]

theorem coerceStep_ok_shape {row : PyDict} {coe : PyVal → Except String PyVal} {d : PyDict}
    {f : String} {d1 : PyDict} (h : coerceStep row coe d f = Except.ok d1) :
    ∃ v, d1 = dictSet d f v := by
  unfold coerceStep at h
  by_cases hr : rowHas row f
  · rw [if_pos hr] at h
    cases hc : coe (rowGet row f) with
    | ok v =>
      rw [hc] at h
      injection h with h
      exact ⟨v, h.symm⟩
    | error e =>
      rw [hc] at h
      cases h
  · rw [if_neg hr] at h
    injection h with h
    exact ⟨PyVal.vnull, h.symm⟩

theorem coerceFold_ok_not_mem {row : PyDict} {coe : PyVal → Except String PyVal}
    {f : String} :
    ∀ (l : List String) (d d' : PyDict), coerceFold row coe l d = Except.ok d' → f ∉ l →
      dictGet d' f = dictGet d f := by
  intro l
  induction l with
  | nil =>
    intro d d' h _
    injection h with h
    rw [h]
  | cons a rest ih =>
    intro d d' h hf
    cases hs : coerceStep row coe d a with
    | error e =>
      rw [coerceFold_cons_err hs] at h
      cases h
    | ok d1 =>
      rw [coerceFold_cons_ok hs] at h
      obtain ⟨v, rfl⟩ := coerceStep_ok_shape hs
      have hne : f ≠ a := fun hEq => hf (by rw [hEq]; exact List.mem_cons_self a rest)
      rw [ih _ _ h (fun hm => hf (List.mem_cons_of_mem a hm))]
      exact dictGet_dictSet_ne d hne v

theorem coerceFold_ok_mem_absent {row : PyDict} {coe : PyVal → Except String PyVal}
    {f : String} (hf : rowHas row f = false) :
    ∀ (l : List String) (d d' : PyDict), coerceFold row coe l d = Except.ok d' → f ∈ l →
      dictGet d' f = some PyVal.vnull := by
  intro l
  induction l with
  | nil => intro d d' _ hm; simp at hm
  | cons a rest ih =>
    intro d d' h hm
    cases hs : coerceStep row coe d a with
    | error e =>
      rw [coerceFold_cons_err hs] at h
      cases h
    | ok d1 =>
      rw [coerceFold_cons_ok hs] at h
      by_cases hrest : f ∈ rest
      · exact ih _ _ h hrest
      · have hfa : f = a := by
          rcases List.mem_cons.mp hm with h' | h'
          · exact h'
          · exact absurd h' hrest
        subst hfa
        have hd1 : d1 = dictSet d f PyVal.vnull := by
          unfold coerceStep at hs
          rw [if_neg (by simp [hf])] at hs
          injection hs with h'
          exact h'.symm
        rw [coerceFold_ok_not_mem rest d1 d' h hrest, hd1, dictGet_dictSet_self]

theorem coerceFold_err {row : PyDict} {coe : PyVal → Except String PyVal} {f : String}
    (hh : rowHas row f = true) {e0 : String} (hc : coe (rowGet row f) = Except.error e0) :
    ∀ (l : List String) (d d' : PyDict), f ∈ l → coerceFold row coe l d ≠ Except.ok d' := by
  intro l
  induction l with
  | nil => intro d d' hm; simp at hm
  | cons a rest ih =>
    intro d d' hm h
    by_cases hfa : f = a
    · subst hfa
      have hs : coerceStep row coe d f = Except.error e0 := by
        unfold coerceStep
        rw [if_pos hh, hc]
      rw [coerceFold_cons_err hs] at h
      cases h
    · have hrest : f ∈ rest := by
        rcases List.mem_cons.mp hm with h' | h'
        · exact absurd h' hfa
        · exact h'
      cases hs : coerceStep row coe d a with
      | error e =>
        rw [coerceFold_cons_err hs] at h
        cases h
      | ok d1 =>
        rw [coerceFold_cons_ok hs] at h
        exact ih _ _ hrest h

/-- C9: `parse_row` null handling. On success, every declared string/int/
float field absent from the raw row shows up as an explicit `None` entry in
the output dict; a declared int or float field present in the row with a
null value makes the whole call raise (`int(None)`/`float(None)`), so no
output is produced at all; and a declared string field (not redeclared as
numeric) is passed through without any type coercion. -/
theorem C9_parse_row_null_handling (row : PyDict) (fs fi ff : List String) :
    (∀ f d, (f ∈ fs ∨ f ∈ fi ∨ f ∈ ff) → rowHas row f = false →
        parse_row row fs fi ff = Except.ok d → dictGet d f = some PyVal.vnull)
    ∧ (∀ f, (f ∈ fi ∨ f ∈ ff) → rowHas row f = true → rowGet row f = PyVal.vnull →
        ∀ d, parse_row row fs fi ff ≠ Except.ok d)
    ∧ (∀ f d, f ∈ fs → f ∉ fi → f ∉ ff → parse_row row fs fi ff = Except.ok d →
        dictGet d f = some (rowGet row f)) := by
  have hinv : ∀ d : PyDict, parse_row row fs fi ff = Except.ok d →
      ∃ d2, coerceFold row (fun v => (pyIntOf v).map PyVal.vint) fi
          (fs.foldl (fun d g => dictSet d g (rowGet row g)) []) = Except.ok d2
        ∧ coerceFold row (fun v => (pyFloatOf v).map PyVal.vfloat) ff d2 = Except.ok d := by
    intro d h
    unfold parse_row at h
    split at h
    · cases h
    · rename_i d2 h2
      split at h
      · cases h
      · rename_i d3 h3
        injection h with h
        subst h
        exact ⟨d2, h2, h3⟩
  refine ⟨?_, ?_, ?_⟩
  · intro f d hmem hf h
    obtain ⟨d2, h2, h3⟩ := hinv d h
    by_cases hff : f ∈ ff
    · exact coerceFold_ok_mem_absent hf ff d2 d h3 hff
    · rw [coerceFold_ok_not_mem ff d2 d h3 hff]
      by_cases hfi : f ∈ fi
      · exact coerceFold_ok_mem_absent hf fi _ d2 h2 hfi
      · rw [coerceFold_ok_not_mem fi _ d2 h2 hfi]
        have hfs : f ∈ fs := by tauto
        rw [stringFold_mem fs [] hfs, rowGet_of_not_has hf]
  · intro f hmem hh hv d h
    obtain ⟨d2, h2, h3⟩ := hinv d h
    rcases hmem with hfi | hff
    · exact coerceFold_err hh (by rw [hv]; rfl) fi _ d2 hfi h2
    · exact coerceFold_err hh (by rw [hv]; rfl) ff d2 d hff h3
  · intro f d hfs hfi hff h
    obtain ⟨d2, h2, h3⟩ := hinv d h
    rw [coerceFold_ok_not_mem ff d2 d h3 hff, coerceFold_ok_not_mem fi _ d2 h2 hfi,
      stringFold_mem fs [] hfs]

/-- Witness for C9 at a concrete row holding a null in a declared int field:
the call raises instead of producing a dict. -/
theorem C9_parse_row_null_handling_witness :
    parse_row [("value", PyVal.vnull)] [] ["value"] [] ≠ Except.ok [] :=
  (C9_parse_row_null_handling [("value", PyVal.vnull)] [] ["value"] []).2.1
    "value" (Or.inl (by simp)) (by decide) (by decide) []

theorem find?_append_none {α : Type} {p : α → Bool} {l1 : List α} (h : l1.find? p = none)
    (l2 : List α) : (l1 ++ l2).find? p = l2.find? p := by
  induction l1 with
  | nil => rfl
  | cons a rest ih =>
    have hall := List.find?_eq_none.mp h
    rw [List.cons_append,
      List.find?_cons_of_neg _ (hall a (List.mem_cons_self a rest))]
    exact ih (List.find?_eq_none.mpr (fun x hx => hall x (List.mem_cons_of_mem a hx)))

theorem findHist_none {hist : List StoredRow} {k : SigKey} {iss : Int}
    (h : findHist hist k iss = none) :
    ∀ x ∈ hist, ¬(x.row.key = k ∧ x.row.issue = iss) := by
  intro x hx hcon
  have := List.find?_eq_none.mp h x hx
  simp [hcon.1, hcon.2] at this

theorem findHist_some {hist : List StoredRow} {k : SigKey} {iss : Int} {h : StoredRow}
    (hf : findHist hist k iss = some h) :
    h ∈ hist ∧ h.row.key = k ∧ h.row.issue = iss := by
  have hmem := List.mem_of_find?_eq_some hf
  have hp := List.find?_some hf
  simp only [Bool.and_eq_true, beq_iff_eq] at hp
  exact ⟨hmem, hp.1, hp.2⟩

theorem findLat_none {lat : List StoredRow} {k : SigKey} (h : findLat lat k = none) :
    ∀ x ∈ lat, x.row.key ≠ k := by
  intro x hx hcon
  have := List.find?_eq_none.mp h x hx
  simp [hcon] at this

theorem findLat_some {lat : List StoredRow} {k : SigKey} {l : StoredRow}
    (hf : findLat lat k = some l) : l ∈ lat ∧ l.row.key = k := by
  have hmem := List.mem_of_find?_eq_some hf
  have hp := List.find?_some hf
  simp only [beq_iff_eq] at hp
  exact ⟨hmem, hp⟩

theorem reconcileRow_hist_none_lat_none {hist lat : List StoredRow} {sid : Nat}
    {r : CovidcastRow} (h1 : findHist hist r.key r.issue = none)
    (h2 : findLat lat r.key = none) :
    reconcileRow hist lat sid r = (hist ++ [⟨sid, r⟩], lat ++ [⟨sid, r⟩]) := by
  simp only [reconcileRow, h1, h2]

theorem reconcileRow_hist_none_lat_lower {hist lat : List StoredRow} {sid : Nat}
    {r : CovidcastRow} {lr : StoredRow} (h1 : findHist hist r.key r.issue = none)
    (h2 : findLat lat r.key = some lr) (h3 : lr.row.issue < r.issue) :
    reconcileRow hist lat sid r
      = (hist ++ [⟨sid, r⟩], lat.filter (fun l => !(l.row.key == r.key)) ++ [⟨sid, r⟩]) := by
  simp only [reconcileRow, h1, h2, if_pos h3]

theorem reconcileRow_hist_none_lat_keep {hist lat : List StoredRow} {sid : Nat}
    {r : CovidcastRow} {lr : StoredRow} (h1 : findHist hist r.key r.issue = none)
    (h2 : findLat lat r.key = some lr) (h3 : ¬ lr.row.issue < r.issue) :
    reconcileRow hist lat sid r = (hist ++ [⟨sid, r⟩], lat) := by
  simp only [reconcileRow, h1, h2, if_neg h3]

theorem reconcileRow_hist_some_lat_none {hist lat : List StoredRow} {sid : Nat}
    {r : CovidcastRow} {h : StoredRow} (h1 : findHist hist r.key r.issue = some h)
    (h2 : findLat lat r.key = none) :
    reconcileRow hist lat sid r = (hist, lat ++ [⟨h.signal_data_id, r⟩]) := by
  simp only [reconcileRow, h1, h2]

theorem reconcileRow_hist_some_lat_lower {hist lat : List StoredRow} {sid : Nat}
    {r : CovidcastRow} {h lr : StoredRow} (h1 : findHist hist r.key r.issue = some h)
    (h2 : findLat lat r.key = some lr) (h3 : lr.row.issue < r.issue) :
    reconcileRow hist lat sid r
      = (hist, lat.filter (fun l => !(l.row.key == r.key)) ++ [⟨h.signal_data_id, r⟩]) := by
  simp only [reconcileRow, h1, h2, if_pos h3]

theorem reconcileRow_hist_some_lat_keep {hist lat : List StoredRow} {sid : Nat}
    {r : CovidcastRow} {h lr : StoredRow} (h1 : findHist hist r.key r.issue = some h)
    (h2 : findLat lat r.key = some lr) (h3 : ¬ lr.row.issue < r.issue) :
    reconcileRow hist lat sid r = (hist, lat) := by
  simp only [reconcileRow, h1, h2, if_neg h3]

theorem filter_key_ne {lat : List StoredRow} {r : CovidcastRow} :
    ∀ l ∈ lat.filter (fun l => !(l.row.key == r.key)), l.row.key ≠ r.key := by
  intro l hl
  have := (List.mem_filter.mp hl).2
  simp at this
  exact this

theorem latestKeysUnique_append {lat : List StoredRow} {x : StoredRow}
    (hk : latestKeysUnique lat) (hx : ∀ l ∈ lat, l.row.key ≠ x.row.key) :
    latestKeysUnique (lat ++ [x]) := by
  rw [latestKeysUnique, List.pairwise_append]
  exact ⟨hk, List.pairwise_singleton _ _, fun a ha b hb => by
    rw [List.mem_singleton.mp hb]; exact hx a ha⟩

theorem latestKeysUnique_filter {lat : List StoredRow} (hk : latestKeysUnique lat)
    (p : StoredRow → Bool) : latestKeysUnique (lat.filter p) :=
  hk.sublist (List.filter_sublist lat)

theorem reconcileRow_inv {hist lat : List StoredRow} {n sid : Nat} (hsid : sid < n)
    (r : CovidcastRow) (hs : idSyncTables hist lat) (hb : idsBelow n hist lat)
    (hk : latestKeysUnique lat) :
    idSyncTables (reconcileRow hist lat sid r).1 (reconcileRow hist lat sid r).2
    ∧ idsBelow n (reconcileRow hist lat sid r).1 (reconcileRow hist lat sid r).2
    ∧ latestKeysUnique (reconcileRow hist lat sid r).2 := by
  cases h1 : findHist hist r.key r.issue with
  | none =>
    cases h2 : findLat lat r.key with
    | none =>
      rw [reconcileRow_hist_none_lat_none h1 h2]
      refine ⟨?_, ⟨?_, ?_⟩, ?_⟩
      · intro lr hlr
        rcases List.mem_append.mp hlr with hlr | hlr
        · obtain ⟨hr, hhr, hprop⟩ := hs lr hlr
          exact ⟨hr, List.mem_append_left _ hhr, hprop⟩
        · rw [List.mem_singleton.mp hlr]
          exact ⟨⟨sid, r⟩, List.mem_append_right _ (List.mem_singleton_self _),
            rfl, rfl, rfl⟩
      · intro x hx
        rcases List.mem_append.mp hx with hx | hx
        · exact hb.1 x hx
        · rw [List.mem_singleton.mp hx]; exact hsid
      · intro x hx
        rcases List.mem_append.mp hx with hx | hx
        · exact hb.2 x hx
        · rw [List.mem_singleton.mp hx]; exact hsid
      · exact latestKeysUnique_append hk (fun l hl => findLat_none h2 l hl)
    | some lr0 =>
      by_cases h3 : lr0.row.issue < r.issue
      · rw [reconcileRow_hist_none_lat_lower h1 h2 h3]
        refine ⟨?_, ⟨?_, ?_⟩, ?_⟩
        · intro lr hlr
          rcases List.mem_append.mp hlr with hlr | hlr
          · obtain ⟨hr, hhr, hprop⟩ := hs lr (List.mem_filter.mp hlr).1
            exact ⟨hr, List.mem_append_left _ hhr, hprop⟩
          · rw [List.mem_singleton.mp hlr]
            exact ⟨⟨sid, r⟩, List.mem_append_right _ (List.mem_singleton_self _),
              rfl, rfl, rfl⟩
        · intro x hx
          rcases List.mem_append.mp hx with hx | hx
          · exact hb.1 x hx
          · rw [List.mem_singleton.mp hx]; exact hsid
        · intro x hx
          rcases List.mem_append.mp hx with hx | hx
          · exact hb.2 x (List.mem_filter.mp hx).1
          · rw [List.mem_singleton.mp hx]; exact hsid
        · exact latestKeysUnique_append (latestKeysUnique_filter hk _) filter_key_ne
      · rw [reconcileRow_hist_none_lat_keep h1 h2 h3]
        refine ⟨?_, ⟨?_, hb.2⟩, hk⟩
        · intro lr hlr
          obtain ⟨hr, hhr, hprop⟩ := hs lr hlr
          exact ⟨hr, List.mem_append_left _ hhr, hprop⟩
        · intro x hx
          rcases List.mem_append.mp hx with hx | hx
          · exact hb.1 x hx
          · rw [List.mem_singleton.mp hx]; exact hsid
  | some h0 =>
    obtain ⟨hmem0, hkey0, hiss0⟩ := findHist_some h1
    cases h2 : findLat lat r.key with
    | none =>
      rw [reconcileRow_hist_some_lat_none h1 h2]
      refine ⟨?_, ⟨hb.1, ?_⟩, ?_⟩
      · intro lr hlr
        rcases List.mem_append.mp hlr with hlr | hlr
        · exact hs lr hlr
        · rw [List.mem_singleton.mp hlr]
          exact ⟨h0, hmem0, hkey0, hiss0, rfl⟩
      · intro x hx
        rcases List.mem_append.mp hx with hx | hx
        · exact hb.2 x hx
        · rw [List.mem_singleton.mp hx]; exact hb.1 h0 hmem0
      · exact latestKeysUnique_append hk (fun l hl => findLat_none h2 l hl)
    | some lr0 =>
      by_cases h3 : lr0.row.issue < r.issue
      · rw [reconcileRow_hist_some_lat_lower h1 h2 h3]
        refine ⟨?_, ⟨hb.1, ?_⟩, ?_⟩
        · intro lr hlr
          rcases List.mem_append.mp hlr with hlr | hlr
          · exact hs lr (List.mem_filter.mp hlr).1
          · rw [List.mem_singleton.mp hlr]
            exact ⟨h0, hmem0, hkey0, hiss0, rfl⟩
        · intro x hx
          rcases List.mem_append.mp hx with hx | hx
          · exact hb.2 x (List.mem_filter.mp hx).1
          · rw [List.mem_singleton.mp hx]; exact hb.1 h0 hmem0
        · exact latestKeysUnique_append (latestKeysUnique_filter hk _) filter_key_ne
      · rw [reconcileRow_hist_some_lat_keep h1 h2 h3]
        exact ⟨hs, hb, hk⟩

theorem idsBelow_mono {n m : Nat} (hnm : n ≤ m) {hist lat : List StoredRow}
    (h : idsBelow n hist lat) : idsBelow m hist lat :=
  ⟨fun x hx => lt_of_lt_of_le (h.1 x hx) hnm, fun x hx => lt_of_lt_of_le (h.2 x hx) hnm⟩

theorem reconcileAll_inv :
    ∀ (rows : List CovidcastRow) (n0 : Nat) (hist lat : List StoredRow),
      idSyncTables hist lat → idsBelow n0 hist lat → latestKeysUnique lat →
      idSyncTables (reconcileAll (hist, lat) (assignIds n0 rows)).1
          (reconcileAll (hist, lat) (assignIds n0 rows)).2
        ∧ idsBelow (n0 + rows.length) (reconcileAll (hist, lat) (assignIds n0 rows)).1
            (reconcileAll (hist, lat) (assignIds n0 rows)).2
        ∧ latestKeysUnique (reconcileAll (hist, lat) (assignIds n0 rows)).2 := by
  intro rows
  induction rows with
  | nil =>
    intro n0 hist lat hs hb hk
    exact ⟨hs, by simpa using hb, hk⟩
  | cons r rest ih =>
    intro n0 hist lat hs hb hk
    have hstep := @reconcileRow_inv hist lat (n0 + 1) n0 (by omega) r hs
      (idsBelow_mono (by omega) hb) hk
    have hunfold : reconcileAll (hist, lat) (assignIds n0 (r :: rest))
        = reconcileAll (reconcileRow hist lat n0 r) (assignIds (n0 + 1) rest) := rfl
    rw [hunfold]
    rcases hrr : reconcileRow hist lat n0 r with ⟨h1, l1⟩
    rw [hrr] at hstep
    obtain ⟨a, b, c⟩ := ih (n0 + 1) h1 l1 hstep.1 hstep.2.1 hstep.2.2
    refine ⟨a, ?_, c⟩
    rw [show n0 + (r :: rest).length = n0 + 1 + rest.length by
      simp only [List.length_cons]; omega]
    exact b

theorem insert_ok_inv {db : SignalDB} {rows : List CovidcastRow} {db' : SignalDB}
    (hInv : SignalDBInv db) (h : insert_or_update_batch db rows = Except.ok db') :
    SignalDBInv db' := by
  unfold insert_or_update_batch at h
  by_cases hload : db.load.isEmpty
  · rw [if_pos hload] at h
    injection h with h
    subst h
    obtain ⟨hs, hb, hk⟩ := hInv
    obtain ⟨a, b, c⟩ := reconcileAll_inv rows db.next_id db.history db.latest hs hb hk
    exact ⟨a, b, c⟩
  · rw [if_neg hload] at h
    cases h

theorem applyBatch_inv {db : SignalDB} {rows : List CovidcastRow}
    (hInv : SignalDBInv db) : SignalDBInv (applyBatch db rows) := by
  unfold applyBatch
  cases h : insert_or_update_batch db rows with
  | ok db' => exact insert_ok_inv hInv h
  | error e => exact hInv

theorem emptyDB_inv : SignalDBInv emptyDB := by
  refine ⟨?_, ⟨?_, ?_⟩, ?_⟩
  · intro lr hlr
    simp [emptyDB] at hlr
  · intro x hx
    simp [emptyDB] at hx
  · intro x hx
    simp [emptyDB] at hx
  · simp [latestKeysUnique, emptyDB]

theorem reachable_inv {db : SignalDB} (h : Reachable db) : SignalDBInv db := by
  obtain ⟨bs, rfl⟩ := h
  have haux : ∀ (bs : List (List CovidcastRow)) (db0 : SignalDB),
      SignalDBInv db0 → SignalDBInv (bs.foldl applyBatch db0) := by
    intro bs
    induction bs with
    | nil => intro db0 h0; exact h0
    | cons b rest ih => intro db0 h0; exact ih _ (applyBatch_inv h0)
  exact haux bs emptyDB emptyDB_inv

/-- C1: signal database id-sync. In every state reachable by a sequence of
`insert_or_update_batch` calls, each Latest row is backed by the History row
of the same natural key at the same issue carrying the same
`signal_data_id`; and reissuing a natural key at a strictly higher issue
(when the load table is clear and that issue is not yet in History) installs
a Latest row with a fresh surrogate id distinct from the old one, removes
the superseded issue from Latest, keeps the superseded row in History, and
preserves the id-sync invariant. -/
theorem C1_id_sync (db : SignalDB) (hdb : Reachable db) :
    idSync db
    ∧ ∀ (r : CovidcastRow) (lr : StoredRow),
        findLat db.latest r.key = some lr →
        lr.row.issue < r.issue →
        findHist db.history r.key r.issue = none →
        db.load = [] →
        ∃ lr', findLat (applyBatch db [r]).latest r.key = some lr'
          ∧ lr'.row.issue = r.issue
          ∧ lr'.signal_data_id ≠ lr.signal_data_id
          ∧ (∀ l ∈ (applyBatch db [r]).latest, l.row.key = r.key → l.row.issue = r.issue)
          ∧ (∃ hr ∈ (applyBatch db [r]).history,
              hr.row.key = r.key ∧ hr.row.issue = lr.row.issue
                ∧ hr.signal_data_id = lr.signal_data_id)
          ∧ idSync (applyBatch db [r]) := by
  have hInv := reachable_inv hdb
  refine ⟨hInv.1, ?_⟩
  intro r lr hfl h3 hfh hload
  have hok : insert_or_update_batch db [r]
      = Except.ok
        { load := [],
          history := (reconcileRow db.history db.latest db.next_id r).1,
          latest := (reconcileRow db.history db.latest db.next_id r).2,
          next_id := db.next_id + 1 } := by
    unfold insert_or_update_batch
    rw [if_pos (by rw [hload]; rfl)]
    rfl
  have happ : applyBatch db [r]
      = { load := [],
          history := (reconcileRow db.history db.latest db.next_id r).1,
          latest := (reconcileRow db.history db.latest db.next_id r).2,
          next_id := db.next_id + 1 } := by
    unfold applyBatch
    rw [hok]
  have hrr := @reconcileRow_hist_none_lat_lower db.history db.latest db.next_id r lr hfh hfl h3
  have hlatmem := (findLat_some hfl).1
  have hlatkey := (findLat_some hfl).2
  refine ⟨⟨db.next_id, r⟩, ?_, rfl, ?_, ?_, ?_, ?_⟩
  · rw [happ]
    show findLat (reconcileRow db.history db.latest db.next_id r).2 r.key = _
    rw [hrr]
    unfold findLat
    rw [find?_append_none (List.find?_eq_none.mpr (fun l hl => by
      simp only [beq_iff_eq]
      simpa using filter_key_ne l hl))]
    rw [List.find?_cons_of_pos _ (by simp)]
  · have hlt := hInv.2.1.2 lr hlatmem
    intro hEq
    simp only at hEq
    omega
  · intro l hl hkey
    rw [happ] at hl
    simp only at hl
    rw [hrr] at hl
    rcases List.mem_append.mp hl with hl | hl
    · exact absurd hkey (filter_key_ne l hl)
    · rw [List.mem_singleton.mp hl]
  · obtain ⟨hr, hhr, hkeq, hieq, hideq⟩ := hInv.1 lr hlatmem
    refine ⟨hr, ?_, by rw [hkeq, hlatkey], hieq, hideq⟩
    rw [happ]
    simp only
    rw [hrr]
    exact List.mem_append_left _ hhr
  · exact (applyBatch_inv hInv).1

/-- Witness for C1 on the scenario of `test_id_sync`: insert the sample row
into the empty database, then reissue it one issue later. -/
theorem C1_id_sync_witness :
    ∃ lr', findLat (applyBatch (applyBatch emptyDB [sampleRow]) [sampleReissue]).latest
          sampleReissue.key = some lr'
      ∧ lr'.row.issue = sampleReissue.issue
      ∧ lr'.signal_data_id ≠ (⟨1, sampleRow⟩ : StoredRow).signal_data_id
      ∧ (∀ l ∈ (applyBatch (applyBatch emptyDB [sampleRow]) [sampleReissue]).latest,
          l.row.key = sampleReissue.key → l.row.issue = sampleReissue.issue)
      ∧ (∃ hr ∈ (applyBatch (applyBatch emptyDB [sampleRow]) [sampleReissue]).history,
          hr.row.key = sampleReissue.key
            ∧ hr.row.issue = (⟨1, sampleRow⟩ : StoredRow).row.issue
            ∧ hr.signal_data_id = (⟨1, sampleRow⟩ : StoredRow).signal_data_id)
      ∧ idSync (applyBatch (applyBatch emptyDB [sampleRow]) [sampleReissue]) :=
  (C1_id_sync (applyBatch emptyDB [sampleRow]) ⟨[[sampleRow]], rfl⟩).2
    sampleReissue ⟨1, sampleRow⟩ (by decide) (by decide) (by decide) (by decide)

/-- C2: the load-table precondition. When the load (staging) table is
non-empty, `insert_or_update_batch` raises the integrity error carrying the
highest (critical) severity and the state — Latest and History included —
is left completely unmodified; when the load table is empty, the batch is
accepted without error. -/
theorem C2_load_table_precondition (db : SignalDB) (rows : List CovidcastRow) :
    (db.load ≠ [] →
      insert_or_update_batch db rows
          = Except.error { severity := Severity.critical, message := "load table is not empty" }
        ∧ applyBatch db rows = db)
    ∧ (db.load = [] → ∃ db', insert_or_update_batch db rows = Except.ok db') := by
  constructor
  · intro h
    have hcond : ¬ (db.load.isEmpty = true) := by
      simp only [List.isEmpty_iff]
      exact h
    have herr : insert_or_update_batch db rows
        = Except.error { severity := Severity.critical, message := "load table is not empty" } := by
      unfold insert_or_update_batch
      rw [if_neg hcond]
    refine ⟨herr, ?_⟩
    unfold applyBatch
    rw [herr]
  · intro h
    refine ⟨{ load := [],
              history := (reconcileAll (db.history, db.latest) (assignIds db.next_id rows)).1,
              latest := (reconcileAll (db.history, db.latest) (assignIds db.next_id rows)).2,
              next_id := db.next_id + rows.length }, ?_⟩
    unfold insert_or_update_batch
    rw [if_pos (by rw [h]; rfl)]

/-- Witness for C2 on the staged state of `test_empty_load_table`: a
database whose load table holds a leftover row rejects the sample batch
with the critical-severity error and is left unchanged; the empty database
accepts it. -/
theorem C2_load_table_precondition_witness :
    (insert_or_update_batch loadedDB [sampleRow]
        = Except.error { severity := Severity.critical, message := "load table is not empty" }
      ∧ applyBatch loadedDB [sampleRow] = loadedDB)
    ∧ ∃ db', insert_or_update_batch emptyDB [sampleRow] = Except.ok db' :=
  ⟨(C2_load_table_precondition loadedDB [sampleRow]).1 (by decide),
    (C2_load_table_precondition emptyDB [sampleRow]).2 rfl⟩

theorem exists_max_issue : ∀ (l : List NowcastRow), l ≠ [] →
    ∃ r ∈ l, ∀ s ∈ l, s.issue ≤ r.issue := by
  intro l
  induction l with
  | nil => intro h; exact absurd rfl h
  | cons a rest ih =>
    intro _
    by_cases hrest : rest = []
    · subst hrest
      refine ⟨a, List.mem_cons_self a [], fun s hs => ?_⟩
      rw [List.mem_singleton.mp hs]
    · obtain ⟨r, hr, hmax⟩ := ih hrest
      by_cases hle : r.issue ≤ a.issue
      · refine ⟨a, List.mem_cons_self a rest, fun s hs => ?_⟩
        rcases List.mem_cons.mp hs with rfl | hs
        · exact le_refl _
        · exact le_trans (hmax s hs) hle
      · refine ⟨r, List.mem_cons_of_mem a hr, fun s hs => ?_⟩
        rcases List.mem_cons.mp hs with rfl | hs
        · omega
        · exact hmax s hs

theorem isLatestIssue_iff {rows : List NowcastRow} {q : NowcastQuery} {bound : Option Int}
    {r : NowcastRow} :
    isLatestIssue rows q bound r = true ↔
      ∀ s ∈ rows, rowMatches q s = true → s.key = r.key → withinBound bound s = true →
        s.issue ≤ r.issue := by
  unfold isLatestIssue
  simp only [decide_eq_true_eq]

theorem withinBound_some_iff {b : Int} {s : NowcastRow} :
    withinBound (some b) s = true ↔ s.issue ≤ b := by
  simp [withinBound]

/-- C3: nowcast issue-selection policy. With an explicit issue set, exactly
the matching rows at those issues are returned; with an `as_of` bound, per
natural key the row with the highest issue ≤ the bound (and one is returned
whenever any matching row lies under the bound); with no issue constraint,
per natural key the row with the highest issue overall (and one is returned
whenever any matching row exists). -/
theorem C3_nowcast_issue_selection (rows : List NowcastRow) (q : NowcastQuery) :
    (∀ iss, q.issues = some iss →
      ∀ r, r ∈ nowcast_query rows q ↔
        r ∈ rows ∧ rowMatches q r = true ∧ r.issue ∈ iss)
    ∧ (∀ b, q.issues = none → q.as_of = some b →
      ∀ r, r ∈ nowcast_query rows q ↔
        r ∈ rows ∧ rowMatches q r = true ∧ r.issue ≤ b
          ∧ ∀ s ∈ rows, rowMatches q s = true → s.key = r.key → s.issue ≤ b →
              s.issue ≤ r.issue)
    ∧ (q.issues = none → q.as_of = none →
      ∀ r, r ∈ nowcast_query rows q ↔
        r ∈ rows ∧ rowMatches q r = true
          ∧ ∀ s ∈ rows, rowMatches q s = true → s.key = r.key → s.issue ≤ r.issue)
    ∧ (∀ b, q.issues = none → q.as_of = some b →
      ∀ k, (∃ s ∈ rows, rowMatches q s = true ∧ s.key = k ∧ s.issue ≤ b) →
        ∃ r ∈ nowcast_query rows q, r.key = k)
    ∧ (q.issues = none → q.as_of = none →
      ∀ k, (∃ s ∈ rows, rowMatches q s = true ∧ s.key = k) →
        ∃ r ∈ nowcast_query rows q, r.key = k) := by
  have hchar2 : ∀ b, q.issues = none → q.as_of = some b →
      ∀ r, r ∈ nowcast_query rows q ↔
        r ∈ rows ∧ rowMatches q r = true ∧ r.issue ≤ b
          ∧ ∀ s ∈ rows, rowMatches q s = true → s.key = r.key → s.issue ≤ b →
              s.issue ≤ r.issue := by
    intro b hiss hb r
    simp only [nowcast_query, hiss, hb, List.mem_filter, Bool.and_eq_true,
      decide_eq_true_eq, isLatestIssue_iff, withinBound_some_iff, and_assoc]
  have hchar3 : q.issues = none → q.as_of = none →
      ∀ r, r ∈ nowcast_query rows q ↔
        r ∈ rows ∧ rowMatches q r = true
          ∧ ∀ s ∈ rows, rowMatches q s = true → s.key = r.key → s.issue ≤ r.issue := by
    intro hiss hb r
    simp only [nowcast_query, hiss, hb, List.mem_filter, Bool.and_eq_true,
      isLatestIssue_iff, and_assoc]
    constructor
    · rintro ⟨h1, h2, h3⟩
      exact ⟨h1, h2, fun s hs hm hk => h3 s hs hm hk rfl⟩
    · rintro ⟨h1, h2, h3⟩
      exact ⟨h1, h2, fun s hs hm hk _ => h3 s hs hm hk⟩
  refine ⟨?_, hchar2, hchar3, ?_, ?_⟩
  · intro iss hiss r
    simp only [nowcast_query, hiss, List.mem_filter, Bool.and_eq_true, List.elem_iff,
      and_assoc]
  · intro b hiss hb k ⟨s0, hs0, hm0, hk0, hb0⟩
    have hne : rows.filter
        (fun s => rowMatches q s && s.key == k && decide (s.issue ≤ b)) ≠ [] := by
      intro hnil
      have : s0 ∈ rows.filter
          (fun s => rowMatches q s && s.key == k && decide (s.issue ≤ b)) :=
        List.mem_filter.mpr ⟨hs0, by simp [hm0, hk0, hb0]⟩
      rw [hnil] at this
      exact absurd this (List.not_mem_nil s0)
    obtain ⟨r, hrmem, hrmax⟩ := exists_max_issue _ hne
    obtain ⟨hrrows, hrprop⟩ := List.mem_filter.mp hrmem
    simp only [Bool.and_eq_true, beq_iff_eq, decide_eq_true_eq] at hrprop
    refine ⟨r, (hchar2 b hiss hb r).mpr ⟨hrrows, hrprop.1.1, hrprop.2, ?_⟩, hrprop.1.2⟩
    intro s hs hm hk hsb
    exact hrmax s (List.mem_filter.mpr ⟨hs, by simp [hm, hk, hrprop.1.2, hsb]⟩)
  · intro hiss hb k ⟨s0, hs0, hm0, hk0⟩
    have hne : rows.filter (fun s => rowMatches q s && s.key == k) ≠ [] := by
      intro hnil
      have : s0 ∈ rows.filter (fun s => rowMatches q s && s.key == k) :=
        List.mem_filter.mpr ⟨hs0, by simp [hm0, hk0]⟩
      rw [hnil] at this
      exact absurd this (List.not_mem_nil s0)
    obtain ⟨r, hrmem, hrmax⟩ := exists_max_issue _ hne
    obtain ⟨hrrows, hrprop⟩ := List.mem_filter.mp hrmem
    simp only [Bool.and_eq_true, beq_iff_eq] at hrprop
    refine ⟨r, (hchar3 hiss hb r).mpr ⟨hrrows, hrprop.1, ?_⟩, hrprop.2⟩
    intro s hs hm hk
    exact hrmax s (List.mem_filter.mpr ⟨hs, by simp [hm, hk, hrprop.2]⟩)

/-- Witness for C3 on the data of the integration test: three rows at one
natural key with issues 20200101/20200102/20200103 and values 3.5/2.5/1.5.
The `issues=20200101` query returns the 3.5 row, the unconstrained query
returns the 1.5 row at issue 20200103, and `as_of=20200101` returns the 3.5
row. -/
theorem C3_nowcast_issue_selection_witness :
    nowcastRow1 ∈ nowcast_query [nowcastRow1, nowcastRow2, nowcastRow3]
        (nowcastTestQuery (some [20200101]) none)
    ∧ nowcastRow3 ∈ nowcast_query [nowcastRow1, nowcastRow2, nowcastRow3]
        (nowcastTestQuery none none)
    ∧ nowcastRow1 ∈ nowcast_query [nowcastRow1, nowcastRow2, nowcastRow3]
        (nowcastTestQuery none (some 20200101)) :=
  ⟨((C3_nowcast_issue_selection [nowcastRow1, nowcastRow2, nowcastRow3]
      (nowcastTestQuery (some [20200101]) none)).1 [20200101] rfl nowcastRow1).mpr
      ⟨by simp, by decide, by simp [nowcastRow1]⟩,
    ((C3_nowcast_issue_selection [nowcastRow1, nowcastRow2, nowcastRow3]
      (nowcastTestQuery none none)).2.2.1 rfl rfl nowcastRow3).mpr
      ⟨by simp, by decide, by
        intro s hs hm hk
        rcases List.mem_cons.mp hs with rfl | hs
        · decide
        · rcases List.mem_cons.mp hs with rfl | hs
          · decide
          · rw [List.mem_singleton.mp hs]⟩,
    ((C3_nowcast_issue_selection [nowcastRow1, nowcastRow2, nowcastRow3]
      (nowcastTestQuery none (some 20200101))).2.1 20200101 rfl rfl nowcastRow1).mpr
      ⟨by simp, by decide, by decide, by
        intro s hs hm hk hsb
        rcases List.mem_cons.mp hs with rfl | hs
        · exact le_refl _
        · rcases List.mem_cons.mp hs with rfl | hs
          · exact absurd hsb (by decide)
          · rw [List.mem_singleton.mp hs] at hsb
            exact absurd hsb (by decide)⟩⟩

theorem foldl_max_le_init : ∀ (l : List Int) (a : Int), a ≤ l.foldl max a := by
  intro l
  induction l with
  | nil => intro a; exact le_refl a
  | cons x rest ih =>
    intro a
    rw [List.foldl_cons]
    exact le_trans (le_max_left a x) (ih (max a x))

theorem mem_le_foldl_max : ∀ (l : List Int) (x : Int), x ∈ l → ∀ a, x ≤ l.foldl max a := by
  intro l
  induction l with
  | nil => intro x hx; simp at hx
  | cons y rest ih =>
    intro x hx a
    rw [List.foldl_cons]
    rcases List.mem_cons.mp hx with rfl | hx
    · exact le_trans (le_max_right a x) (foldl_max_le_init rest _)
    · exact ih x hx (max a y)

theorem foldl_upsert_meta : ∀ (ps : List (Int × List (List HospRow))) (s : HospDB),
    (ps.foldl (fun s p => upsertIssue s p.1 p.2.flatten) s).meta_issues
      = s.meta_issues ++ ps.map Prod.fst := by
  intro ps
  induction ps with
  | nil => intro s; simp
  | cons p rest ih =>
    intro s
    rw [List.foldl_cons, ih]
    simp [upsertIssue]

/-- C8: hospitalization acquisition idempotence. A run against metadata
citing an issue newer than the stored maximum reports `acquired = true`;
immediately re-running against the identical metadata reports
`acquired = false` and leaves storage exactly unchanged — no duplicate or
redundant rows. -/
theorem C8_hosp_acquisition_idempotent (db : HospDB)
    (meta : List (Int × List (List HospRow))) :
    ((∃ p ∈ meta, get_max_issue db < p.1) → (hosp_run db meta).1 = true)
    ∧ hosp_run (hosp_run db meta).2 meta = (false, (hosp_run db meta).2) := by
  constructor
  · rintro ⟨p, hp, hlt⟩
    have hmem : p ∈ meta.filter (fun p => decide (get_max_issue db < p.1)) :=
      List.mem_filter.mpr ⟨hp, by simpa using hlt⟩
    show (!(meta.filter (fun p => decide (get_max_issue db < p.1))).isEmpty) = true
    cases hfil : meta.filter (fun p => decide (get_max_issue db < p.1)) with
    | nil =>
      rw [hfil] at hmem
      exact absurd hmem (List.not_mem_nil p)
    | cons a t => rfl
  · have hmeta2 : (hosp_run db meta).2.meta_issues
        = db.meta_issues
          ++ (meta.filter (fun p => decide (get_max_issue db < p.1))).map Prod.fst :=
      foldl_upsert_meta _ db
    have hmax : ∀ p ∈ meta, p.1 ≤ get_max_issue (hosp_run db meta).2 := by
      intro p hp
      by_cases hlt : get_max_issue db < p.1
      · have hmem : p.1 ∈ (hosp_run db meta).2.meta_issues := by
          rw [hmeta2]
          exact List.mem_append_right _
            (List.mem_map.mpr ⟨p, List.mem_filter.mpr ⟨hp, by simpa using hlt⟩, rfl⟩)
        exact mem_le_foldl_max _ _ hmem 19000101
      · have h2 : get_max_issue db ≤ get_max_issue (hosp_run db meta).2 := by
          show db.meta_issues.foldl max 19000101 ≤
            (hosp_run db meta).2.meta_issues.foldl max 19000101
          rw [hmeta2, List.foldl_append]
          exact foldl_max_le_init _ _
        omega
    have hfil2 : meta.filter
        (fun p => decide (get_max_issue (hosp_run db meta).2 < p.1)) = [] := by
      rw [List.filter_eq_nil_iff]
      intro p hp
      simpa using not_lt.mpr (hmax p hp)
    have hstep : hosp_run (hosp_run db meta).2 meta
        = (!(meta.filter
              (fun p => decide (get_max_issue (hosp_run db meta).2 < p.1))).isEmpty,
           (meta.filter
              (fun p => decide (get_max_issue (hosp_run db meta).2 < p.1))).foldl
             (fun s p => upsertIssue s p.1 p.2.flatten) (hosp_run db meta).2) := rfl
    rw [hstep, hfil2]
    rfl

/-- Witness for C8 on the fixture of `test_scenarios.py`: metadata citing
issues 2021-03-13 and 2021-03-15 against empty storage — the first run
acquires, the identical second run is a no-op with storage unchanged. -/
theorem C8_hosp_acquisition_idempotent_witness :
    (hosp_run emptyHospDB hospTestMeta).1 = true
    ∧ hosp_run (hosp_run emptyHospDB hospTestMeta).2 hospTestMeta
        = (false, (hosp_run emptyHospDB hospTestMeta).2) :=
  ⟨(C8_hosp_acquisition_idempotent emptyHospDB hospTestMeta).1
      ⟨(20210313, [[wyRow]]), by simp [hospTestMeta], by decide⟩,
    (C8_hosp_acquisition_idempotent emptyHospDB hospTestMeta).2⟩

end Epidata
